import Mathlib

/-!
Verification of the sc-text-fe capture pipeline against its design notes.

This file gives a shallow embedding, over ℚ and ℤ, of the numeric parts of:
  - the camera component of `src/unnamed/part_000`-style `LabelCamera`
    (central crop, fixed-width output normalisation, capture state flow),
  - the analysis `tick` of `src/components/LabelCamera.tsx`
    (candidate acceptance checks, aspect adjustment, exponential smoothing),
  - `Compare.tsx` helpers (`exportCroppedRegion` JPEG re-encode loop,
    `makeLineDiffs`).
Pixel data, the DOM, and JS floats are abstracted: real-valued arithmetic is
embedded in ℚ (`Math.round` is Mathlib's `round`, which likewise rounds half
towards +∞), and image encoding is an oracle `ℚ → Option ℕ` giving the byte
size obtained at a given JPEG quality, `none` standing for a null blob.
-/

namespace ScTextFE

/-- A rectangle in fractional frame coordinates, the `BoxNorm` of
`LabelCamera.tsx` (`{x, y, w, h}` with components relative to frame size). -/
structure BoxNorm where
  x : ℚ
  y : ℚ
  w : ℚ
  h : ℚ
deriving DecidableEq

/-- An integer pixel box as manipulated inside `tick`
(`minX`, `minY`, `maxX`, `maxY` over the 320×240 analysis canvas). -/
structure IBox where
  minX : ℤ
  minY : ℤ
  maxX : ℤ
  maxY : ℤ
deriving DecidableEq

/-- The `NormalizedRegion` invariant of the design notes: all four fractional
coordinates lie in `[0,1]`, the box stays inside the unit frame, and it has
positive extent. -/
def RegionInvariant (b : BoxNorm) : Prop :=
  0 ≤ b.x ∧ b.x ≤ 1 ∧ 0 ≤ b.y ∧ b.y ≤ 1 ∧
  0 < b.w ∧ b.w ≤ 1 ∧ 0 < b.h ∧ b.h ≤ 1 ∧
  b.x + b.w ≤ 1 ∧ b.y + b.h ≤ 1

instance (b : BoxNorm) : Decidable (RegionInvariant b) := by
  unfold RegionInvariant; infer_instance

/-- Target aspect ratio as computed in `handleCapture`
(`aspectRatio > 0 ? aspectRatio : 1`): any non-positive input falls back
to the square ratio 1. -/
def captureTargetAR (aspectRatio : ℚ) : ℚ :=
  if 0 < aspectRatio then aspectRatio else 1

/-- Target aspect ratio as computed in `tick` (`aspectRatio || 1`): the JS
`||` falls back to 1 only when `aspectRatio` is `0`, so a negative input
passes through unchanged. -/
def tickTargetAR (aspectRatio : ℚ) : ℚ :=
  if aspectRatio = 0 then 1 else aspectRatio

/-- The source rectangle `{sx, sy, sw, sh}` returned by `centralCrop`. -/
structure CropRect where
  sx : ℚ
  sy : ℚ
  sw : ℚ
  sh : ℚ
deriving DecidableEq

/-- The `centralCrop` helper: a crop of 70% of the frame width, shrunk to 70%
of the frame height when the implied height overflows, centred in the frame,
with width/height ratio `targetAR`. -/
def centralCrop (W H targetAR : ℚ) : CropRect :=
  let sw := W * (7/10)
  let sh := sw / targetAR
  if H * (7/10) < sh then
    let sh2 := H * (7/10)
    let sw2 := sh2 * targetAR
    { sx := (W - sw2) / 2, sy := (H - sh2) / 2, sw := sw2, sh := sh2 }
  else
    { sx := (W - sw) / 2, sy := (H - sh) / 2, sw := sw, sh := sh }

/-- Output canvas dimensions chosen by `handleCapture`
(`outW = 1000`, `outH = Math.round(outW / targetAR)`), guarded by the
early return on a zero-sized video. -/
def captureOutputDims (vw vh : ℕ) (aspectRatio : ℚ) : Option (ℤ × ℤ) :=
  if vw = 0 ∨ vh = 0 then none
  else
    let targetAR := captureTargetAR aspectRatio
    some (1000, round ((1000 : ℚ) / targetAR))

/-- Relative area of a candidate box over the analysis frame,
`(bw * bh) / (W * H)` in `tick`. -/
def areaRel (W H bw bh : ℤ) : ℚ :=
  ((bw * bh : ℤ) : ℚ) / ((W * H : ℤ) : ℚ)

/-- The area acceptance band of `tick`: `areaRel > 0.2 && areaRel < 0.7`. -/
def okArea (W H bw bh : ℤ) : Prop :=
  1/5 < areaRel W H bw bh ∧ areaRel W H bw bh < 7/10

/-- The aspect adjustment of `tick`: a box too wide for `targetAR` is grown
vertically about its centre, a box too tall is grown horizontally, each end
rounded and clamped to the frame (`Math.max(0, ...)` / `Math.min(dim-1, ...)`). -/
def adjustBox (W H : ℤ) (targetAR : ℚ) (b : IBox) : IBox :=
  let bw : ℤ := b.maxX - b.minX
  let bh : ℤ := b.maxY - b.minY
  let boxAR : ℚ := (bw : ℚ) / (bh : ℚ)
  if targetAR < boxAR then
    let desiredH : ℚ := (bw : ℚ) / targetAR
    let extra : ℚ := desiredH - (bh : ℚ)
    { minX := b.minX
      minY := max 0 (round ((b.minY : ℚ) - extra / 2))
      maxX := b.maxX
      maxY := min (H - 1) (round ((b.maxY : ℚ) + extra / 2)) }
  else
    let desiredW : ℚ := (bh : ℚ) * targetAR
    let extra : ℚ := desiredW - (bw : ℚ)
    { minX := max 0 (round ((b.minX : ℚ) - extra / 2))
      minY := b.minY
      maxX := min (W - 1) (round ((b.maxX : ℚ) + extra / 2))
      maxY := b.maxY }

/-- Squared distance of the (adjusted) box centre from the frame centre.
The source compares `Math.sqrt(dx*dx + dy*dy) < 0.25`; we square both sides,
which is equivalent since both are non-negative. -/
def centerDistSq (W H : ℤ) (a : IBox) : ℚ :=
  let cx : ℚ := ((a.minX + a.maxX : ℤ) : ℚ) / 2 / (W : ℚ)
  let cy : ℚ := ((a.minY + a.maxY : ℤ) : ℚ) / 2 / (H : ℚ)
  |cx - 1/2| ^ 2 + |cy - 1/2| ^ 2

/-- The centring acceptance check of `tick`: centre within normalized
distance 0.25 of the frame centre (squared form of `centerDist < 0.25`). -/
def okCenter (W H : ℤ) (a : IBox) : Prop :=
  centerDistSq W H a < 1/16

/-- The residual aspect error check of `tick` after adjustment:
`Math.abs(boxAR - targetAR) / targetAR < 0.25`. -/
def okRatio (targetAR : ℚ) (a : IBox) : Prop :=
  |((a.maxX - a.minX : ℤ) : ℚ) / ((a.maxY - a.minY : ℤ) : ℚ) - targetAR| / targetAR
    < 1/4

instance (W H bw bh : ℤ) : Decidable (okArea W H bw bh) := by
  unfold okArea; infer_instance

instance (W H : ℤ) (a : IBox) : Decidable (okCenter W H a) := by
  unfold okCenter; infer_instance

instance (targetAR : ℚ) (a : IBox) : Decidable (okRatio targetAR a) := by
  unfold okRatio; infer_instance

/-- Conversion of an accepted pixel box to fractional coordinates,
`{x: minX/W, y: minY/H, w: bw/W, h: bh/H}` in `tick`. -/
def toBoxNorm (W H : ℤ) (a : IBox) : BoxNorm :=
  { x := (a.minX : ℚ) / (W : ℚ)
    y := (a.minY : ℚ) / (H : ℚ)
    w := ((a.maxX - a.minX : ℤ) : ℚ) / (W : ℚ)
    h := ((a.maxY - a.minY : ℤ) : ℚ) / (H : ℚ) }

/-- The candidate-emission logic of one `tick`: given the raw edge bounding
box, emit a fractional region exactly when the degeneracy guard
(`maxX > minX && maxY > minY`) and all three acceptance checks pass. -/
def tickCandidate (W H : ℤ) (aspectRatio : ℚ) (b : IBox) : Option BoxNorm :=
  if b.minX < b.maxX ∧ b.minY < b.maxY then
    let targetAR := tickTargetAR aspectRatio
    let a := adjustBox W H targetAR b
    if okArea W H (b.maxX - b.minX) (b.maxY - b.minY) ∧
        okCenter W H a ∧ okRatio targetAR a then
      some (toBoxNorm W H a)
    else none
  else none

/-- Exponential smoothing of `tick`
(`prev + (new - prev) * alpha` componentwise with `alpha = 0.28`). -/
def emaBox (p nb : BoxNorm) : BoxNorm :=
  { x := p.x + (nb.x - p.x) * (28/100)
    y := p.y + (nb.y - p.y) * (28/100)
    w := p.w + (nb.w - p.w) * (28/100)
    h := p.h + (nb.h - p.h) * (28/100) }

/-- The smoothing/hold step at the end of `tick`: a fresh candidate is
blended into the previous smoothed box (or adopted outright when there is
none) with the good flag kept; with no candidate the previous smoothed box
is carried over unchanged and the good flag is forced false. Returns the
new smoothed box together with `isGood` (`!!smoothed && good`). -/
def smoothUpdate (prev newBox : Option BoxNorm) : Option BoxNorm × Bool :=
  match newBox with
  | some nb =>
    let smoothed := match prev with
      | none => nb
      | some p => emaBox p nb
    (some smoothed, true)
  | none => (prev, false)

/-- Capture-relevant component state of the single-shot `LabelCamera`:
the processing gate, frozen flag, last preview URL and last shot time. -/
structure CamState where
  isProcessing : Bool
  isFrozen : Bool
  lastPreviewUrl : Option String
  lastShotAt : Option ℕ
deriving DecidableEq

/-- What the `onCapture` callback receives: the encoded file data and the
preview URL. -/
structure CaptureEvent where
  fileData : String
  previewUrl : String
deriving DecidableEq

/-- State/effect flow of `handleCapture`: early return on a zero-sized
video (before the processing flag is raised); afterwards every return path
runs the `finally` that lowers the processing flag. A missing 2d context or
a null blob aborts the attempt without invoking `onCapture` and without
touching the frozen flag, preview URL or timestamp. A successful encode
invokes `onCapture` and freezes the preview. -/
def handleCapture (s : CamState) (vw vh : ℕ) (ctxOk octxOk : Bool)
    (blob : Option String) (purl : String) (now : ℕ) :
    CamState × Option CaptureEvent :=
  if vw = 0 ∨ vh = 0 then (s, none)
  else if ctxOk = false then ({ s with isProcessing := false }, none)
  else if octxOk = false then ({ s with isProcessing := false }, none)
  else
    match blob with
    | none => ({ s with isProcessing := false }, none)
    | some data =>
      ({ isProcessing := false
         isFrozen := true
         lastPreviewUrl := some purl
         lastShotAt := some now },
       some { fileData := data, previewUrl := purl })

/-- The JPEG re-encode loop of `exportCroppedRegion`: while the current blob
exceeds the byte budget and the quality is still above the floor 0.6, lower
the quality by 0.08 (`0.92 = 23/25`, `0.08 = 2/25`, `0.6 = 3/5`) and
re-encode; a null re-encode breaks out with no blob. -/
def encodeLoop (encode : ℚ → Option ℕ) (maxBytes : ℕ) (q : ℚ) (blobSize : ℕ) :
    ℚ × Option ℕ :=
  if h : maxBytes < blobSize ∧ 3/5 < q then
    match encode (q - 2/25) with
    | none => (q - 2/25, none)
    | some b2 => encodeLoop encode maxBytes (q - 2/25) b2
  else (q, some blobSize)
termination_by (⌈(q - 3/5) * (25/2)⌉).toNat
decreasing_by
  simp_wf
  have hq : (3 : ℚ)/5 < q := h.2
  have h2 : ((q - 2/25) - 3/5) * (25/2) = (q - 3/5) * (25/2) - 1 := by ring
  rw [h2, Int.ceil_sub_one]
  exact ⟨by omega, hq⟩

/-- The encode phase of `exportCroppedRegion`: a first encode at quality
0.92 (throwing, i.e. `none`, on a null blob), then the re-encode loop;
returns the final quality and byte size of the emitted file. -/
def exportEncode (encode : ℚ → Option ℕ) (maxBytes : ℕ) : Option (ℚ × ℕ) :=
  (encode (23/25)).bind fun b0 =>
    let r := encodeLoop encode maxBytes (23/25) b0
    r.2.map fun b => (r.1, b)

/-- One line record of `makeLineDiffs` output. -/
structure OcrDiff where
  line : ℕ
  master : String
  scan : String
deriving DecidableEq

/-- Split on `\r?\n` as the JS regex does: split on newline and strip one
carriage return left at the end of a piece. (A lone trailing `\r` with no
newline is also stripped here; the difference is erased by the `trim`
applied to every line before use.) -/
def splitCRLF (s : String) : List String :=
  (s.splitOn "\n").map fun l => if l.endsWith "\r" then l.dropRight 1 else l

/-- The line preprocessing of `makeLineDiffs`:
`split(/\r?\n/).map(s => s.trim()).filter(Boolean)`. -/
def cleanLines (s : String) : List String :=
  ((splitCRLF s).map String.trim).filter fun l => l ≠ ""

/-- The fallback line differ of `Compare.tsx`: compare the cleaned line
sequences index by index up to the longer length, recording 1-based indices
where they disagree (missing lines read as `""`). -/
def makeLineDiffs (master scan : String) : List OcrDiff :=
  let A := cleanLines master
  let B := cleanLines scan
  let L := max A.length B.length
  (List.range L).filterMap fun i =>
    let a := A.getD i ""
    let b := B.getD i ""
    if a ≠ b then some { line := i + 1, master := a, scan := b } else none

/-- Modelled from the spec: parameters of the Focus/Stability Scorer and
Capture Controller of sections 4.3 and 4.4 (warm-up floor, focus-variance
threshold, required consecutive run length). No warm-up or auto-capture
code exists under `src/`; this models the design-note description. -/
structure ScorerParams where
  warmupMs : ℕ
  threshold : ℕ
  minRun : ℕ

/-- Modelled from the spec: the per-session mutable scorer state (elapsed
time since analysis start, consecutive frames above threshold). -/
structure ScorerState where
  elapsedMs : ℕ
  runCount : ℕ
deriving DecidableEq

/-- Modelled from the spec: one analysis tick of the scorer. The elapsed
clock advances by the frame interval; the consecutive counter increments
when the focus score exceeds the threshold and resets to zero otherwise. -/
def scorerStep (p : ScorerParams) (s : ScorerState) (frame : ℕ × ℕ) :
    ScorerState :=
  { elapsedMs := s.elapsedMs + frame.1
    runCount := if p.threshold < frame.2 then s.runCount + 1 else 0 }

/-- Modelled from the spec: readiness declared only when the warm-up has
elapsed and the consecutive-above-threshold run is long enough. -/
def scorerReady (p : ScorerParams) (s : ScorerState) : Bool :=
  decide (p.warmupMs ≤ s.elapsedMs) && decide (p.minRun ≤ s.runCount)

/-- Modelled from the spec: number of automatic captures fired over a frame
trace (one fires on each tick whose post-state is ready; the Ready state of
4.4 triggers capture). Each frame is a pair (interval ms, focus score). -/
def autoCaptureCount (p : ScorerParams) : ScorerState → List (ℕ × ℕ) → ℕ
  | _, [] => 0
  | s, f :: rest =>
    let s2 := scorerStep p s f
    (if scorerReady p s2 then 1 else 0) + autoCaptureCount p s2 rest

/-! ## Helper lemmas -/

/-- Rounding is monotone. -/
theorem round_mono_le {a b : ℚ} (h : a ≤ b) : round a ≤ round b := by
  rw [round_eq, round_eq]
  exact Int.floor_le_floor (by linarith)

/-- Unfolded claim-free description of one scorer tick over the warm-up
clock. -/
theorem scorerStep_elapsed (p : ScorerParams) (s : ScorerState) (f : ℕ × ℕ) :
    (scorerStep p s f).elapsedMs = s.elapsedMs + f.1 := rfl

/-- Before the warm-up floor elapses, readiness is never declared. -/
theorem scorerReady_false_of_warmup (p : ScorerParams) (s : ScorerState)
    (h : s.elapsedMs < p.warmupMs) : scorerReady p s = false := by
  unfold scorerReady
  have : ¬ p.warmupMs ≤ s.elapsedMs := Nat.not_le.mpr h
  simp [this]

/-- No automatic capture fires on any trace whose total elapsed time keeps
the warm-up clock below the floor, from any start state. -/
theorem autoCaptureCount_eq_zero (p : ScorerParams) (frames : List (ℕ × ℕ)) :
    ∀ s : ScorerState,
      s.elapsedMs + (frames.map Prod.fst).sum < p.warmupMs →
      autoCaptureCount p s frames = 0 := by
  induction frames with
  | nil => intro s _; rfl
  | cons f rest ih =>
    intro s h
    rw [List.map_cons, List.sum_cons] at h
    have hlt : (scorerStep p s f).elapsedMs < p.warmupMs := by
      rw [scorerStep_elapsed]; omega
    have hready := scorerReady_false_of_warmup p (scorerStep p s f) hlt
    simp only [autoCaptureCount, hready, Bool.false_eq_true, if_false, zero_add]
    exact ih (scorerStep p s f) (by rw [scorerStep_elapsed]; omega)

/-- Any loop exit carrying a blob happens with the blob within budget or
the quality at or below the floor. -/
theorem encodeLoop_result (encode : ℚ → Option ℕ) (m : ℕ) (q0 : ℚ) (b0 : ℕ) :
    ∀ (q : ℚ) (b : ℕ), encodeLoop encode m q0 b0 = (q, some b) →
      b ≤ m ∨ q ≤ 3/5 := by
  induction q0, b0 using encodeLoop.induct encode m with
  | case1 q1 b1 hguard henc =>
    intro q b heq
    rw [encodeLoop, dif_pos hguard, henc] at heq
    simp at heq
  | case2 q1 b1 hguard b2 henc ih =>
    intro q b heq
    rw [encodeLoop, dif_pos hguard, henc] at heq
    exact ih q b heq
  | case3 q1 b1 hguard =>
    intro q b heq
    rw [encodeLoop, dif_neg hguard] at heq
    have hq : q1 = q := congrArg Prod.fst heq
    have hb : b1 = b := by
      have h2 := congrArg Prod.snd heq
      simpa using h2
    rcases not_and_or.mp hguard with hm | hqle
    · exact Or.inl (hb ▸ Nat.le_of_not_lt hm)
    · exact Or.inr (hq ▸ le_of_not_lt hqle)

/-- The final quality sits on the grid of 0.08-steps below the start
quality, and below-start exits happen just one step under a
quality that was still above the floor. -/
theorem encodeLoop_grid (encode : ℚ → Option ℕ) (m : ℕ) (q0 : ℚ) (b0 : ℕ) :
    ∀ (q : ℚ) (b : ℕ), encodeLoop encode m q0 b0 = (q, some b) →
      ∃ k : ℕ, q = q0 - k * (2/25) ∧ (k = 0 ∨ 3/5 - 2/25 < q) := by
  induction q0, b0 using encodeLoop.induct encode m with
  | case1 q1 b1 hguard henc =>
    intro q b heq
    rw [encodeLoop, dif_pos hguard, henc] at heq
    simp at heq
  | case2 q1 b1 hguard b2 henc ih =>
    intro q b heq
    rw [encodeLoop, dif_pos hguard, henc] at heq
    obtain ⟨k, hk, hd⟩ := ih q b heq
    refine ⟨k + 1, by push_cast [hk]; ring, Or.inr ?_⟩
    rcases hd with h0 | h13
    · subst h0
      simp at hk
      have := hguard.2
      linarith [hk]
    · exact h13
  | case3 q1 b1 hguard =>
    intro q b heq
    rw [encodeLoop, dif_neg hguard] at heq
    have hq : q1 = q := congrArg Prod.fst heq
    exact ⟨0, by simp [hq.symm], Or.inl rfl⟩

/-- Bounds preservation of the aspect adjustment: for a positive target
ratio, the adjusted box stays inside the frame and keeps positive extent
(the grown dimension only moves ends outwards, rounded and clamped). -/
theorem adjustBox_bounds (W H : ℤ) (tAR : ℚ) (b : IBox)
    (htAR : 0 < tAR)
    (hx0 : 0 ≤ b.minX) (hx1 : b.maxX ≤ W - 1)
    (hy0 : 0 ≤ b.minY) (hy1 : b.maxY ≤ H - 1)
    (hxx : b.minX < b.maxX) (hyy : b.minY < b.maxY) :
    0 ≤ (adjustBox W H tAR b).minX ∧ (adjustBox W H tAR b).maxX ≤ W - 1 ∧
    (adjustBox W H tAR b).minX < (adjustBox W H tAR b).maxX ∧
    0 ≤ (adjustBox W H tAR b).minY ∧ (adjustBox W H tAR b).maxY ≤ H - 1 ∧
    (adjustBox W H tAR b).minY < (adjustBox W H tAR b).maxY := by
  have hbwq : (0:ℚ) < ((b.maxX - b.minX : ℤ) : ℚ) := by
    have h := sub_pos.mpr hxx
    exact_mod_cast h
  have hbhq : (0:ℚ) < ((b.maxY - b.minY : ℤ) : ℚ) := by
    have h := sub_pos.mpr hyy
    exact_mod_cast h
  unfold adjustBox
  dsimp only
  split_ifs with hcase
  · -- box too wide for the target: the height is grown about the centre
    have hextra : (0:ℚ) ≤
        ((b.maxX - b.minX : ℤ) : ℚ) / tAR - ((b.maxY - b.minY : ℤ) : ℚ) := by
      have h2 : ((b.maxY - b.minY : ℤ) : ℚ) <
          ((b.maxX - b.minX : ℤ) : ℚ) / tAR := by
        rw [lt_div_iff htAR]
        have h1 := (lt_div_iff hbhq).mp hcase
        linarith
      linarith
    have hrle : round ((b.minY : ℚ) -
        (((b.maxX - b.minX : ℤ) : ℚ) / tAR - ((b.maxY - b.minY : ℤ) : ℚ)) / 2)
        ≤ b.minY := by
      have hle : (b.minY : ℚ) -
          (((b.maxX - b.minX : ℤ) : ℚ) / tAR - ((b.maxY - b.minY : ℤ) : ℚ)) / 2
          ≤ ((b.minY : ℤ) : ℚ) := by
        have hext2 := hextra
        push_cast at hext2 ⊢
        linarith
      calc round ((b.minY : ℚ) -
            (((b.maxX - b.minX : ℤ) : ℚ) / tAR - ((b.maxY - b.minY : ℤ) : ℚ)) / 2)
          ≤ round (((b.minY : ℤ) : ℚ)) := round_mono_le hle
        _ = b.minY := round_intCast _
    have hr2 : b.maxY ≤ round ((b.maxY : ℚ) +
        (((b.maxX - b.minX : ℤ) : ℚ) / tAR - ((b.maxY - b.minY : ℤ) : ℚ)) / 2) := by
      have hle : ((b.maxY : ℤ) : ℚ) ≤ (b.maxY : ℚ) +
          (((b.maxX - b.minX : ℤ) : ℚ) / tAR - ((b.maxY - b.minY : ℤ) : ℚ)) / 2 := by
        have hext2 := hextra
        push_cast at hext2 ⊢
        linarith
      calc (b.maxY : ℤ) = round (((b.maxY : ℤ) : ℚ)) := (round_intCast _).symm
        _ ≤ round ((b.maxY : ℚ) +
            (((b.maxX - b.minX : ℤ) : ℚ) / tAR - ((b.maxY - b.minY : ℤ) : ℚ)) / 2) :=
          round_mono_le hle
    have hA : max 0 (round ((b.minY : ℚ) -
        (((b.maxX - b.minX : ℤ) : ℚ) / tAR - ((b.maxY - b.minY : ℤ) : ℚ)) / 2))
        ≤ b.minY := max_le hy0 hrle
    have hB : b.maxY ≤ min (H - 1) (round ((b.maxY : ℚ) +
        (((b.maxX - b.minX : ℤ) : ℚ) / tAR - ((b.maxY - b.minY : ℤ) : ℚ)) / 2)) :=
      le_min hy1 hr2
    exact ⟨hx0, hx1, hxx, le_max_left _ _, min_le_left _ _,
      lt_of_le_of_lt hA (lt_of_lt_of_le hyy hB)⟩
  · -- box too tall (or exact): the width is grown about the centre
    have hextra : (0:ℚ) ≤
        ((b.maxY - b.minY : ℤ) : ℚ) * tAR - ((b.maxX - b.minX : ℤ) : ℚ) := by
      have h1 := (div_le_iff hbhq).mp (not_lt.mp hcase)
      linarith
    have hrle : round ((b.minX : ℚ) -
        (((b.maxY - b.minY : ℤ) : ℚ) * tAR - ((b.maxX - b.minX : ℤ) : ℚ)) / 2)
        ≤ b.minX := by
      have hle : (b.minX : ℚ) -
          (((b.maxY - b.minY : ℤ) : ℚ) * tAR - ((b.maxX - b.minX : ℤ) : ℚ)) / 2
          ≤ ((b.minX : ℤ) : ℚ) := by
        have hext2 := hextra
        push_cast at hext2 ⊢
        linarith
      calc round ((b.minX : ℚ) -
            (((b.maxY - b.minY : ℤ) : ℚ) * tAR - ((b.maxX - b.minX : ℤ) : ℚ)) / 2)
          ≤ round (((b.minX : ℤ) : ℚ)) := round_mono_le hle
        _ = b.minX := round_intCast _
    have hr2 : b.maxX ≤ round ((b.maxX : ℚ) +
        (((b.maxY - b.minY : ℤ) : ℚ) * tAR - ((b.maxX - b.minX : ℤ) : ℚ)) / 2) := by
      have hle : ((b.maxX : ℤ) : ℚ) ≤ (b.maxX : ℚ) +
          (((b.maxY - b.minY : ℤ) : ℚ) * tAR - ((b.maxX - b.minX : ℤ) : ℚ)) / 2 := by
        have hext2 := hextra
        push_cast at hext2 ⊢
        linarith
      calc (b.maxX : ℤ) = round (((b.maxX : ℤ) : ℚ)) := (round_intCast _).symm
        _ ≤ round ((b.maxX : ℚ) +
            (((b.maxY - b.minY : ℤ) : ℚ) * tAR - ((b.maxX - b.minX : ℤ) : ℚ)) / 2) :=
          round_mono_le hle
    have hA : max 0 (round ((b.minX : ℚ) -
        (((b.maxY - b.minY : ℤ) : ℚ) * tAR - ((b.maxX - b.minX : ℤ) : ℚ)) / 2))
        ≤ b.minX := max_le hx0 hrle
    have hB : b.maxX ≤ min (W - 1) (round ((b.maxX : ℚ) +
        (((b.maxY - b.minY : ℤ) : ℚ) * tAR - ((b.maxX - b.minX : ℤ) : ℚ)) / 2)) :=
      le_min hx1 hr2
    exact ⟨le_max_left _ _, min_le_left _ _,
      lt_of_le_of_lt hA (lt_of_lt_of_le hxx hB), hy0, hy1, hyy⟩

/-- A pixel box strictly inside the frame gives fractional coordinates
satisfying the region invariant. -/
theorem toBoxNorm_invariant (W H : ℤ) (a : IBox) (hW : 0 < W) (hH : 0 < H)
    (ha1 : 0 ≤ a.minX) (ha2 : a.maxX ≤ W - 1) (ha3 : a.minX < a.maxX)
    (ha4 : 0 ≤ a.minY) (ha5 : a.maxY ≤ H - 1) (ha6 : a.minY < a.maxY) :
    RegionInvariant (toBoxNorm W H a) := by
  have hWq : (0:ℚ) < (W:ℚ) := by exact_mod_cast hW
  have hHq : (0:ℚ) < (H:ℚ) := by exact_mod_cast hH
  have hminX : (0:ℚ) ≤ (a.minX:ℚ) := by exact_mod_cast ha1
  have hminY : (0:ℚ) ≤ (a.minY:ℚ) := by exact_mod_cast ha4
  have hmaxX : (a.maxX:ℚ) ≤ (W:ℚ) - 1 := by exact_mod_cast ha2
  have hmaxY : (a.maxY:ℚ) ≤ (H:ℚ) - 1 := by exact_mod_cast ha5
  have hltX : (a.minX:ℚ) < (a.maxX:ℚ) := by exact_mod_cast ha3
  have hltY : (a.minY:ℚ) < (a.maxY:ℚ) := by exact_mod_cast ha6
  unfold RegionInvariant toBoxNorm
  push_cast
  refine ⟨by positivity, ?_, by positivity, ?_, ?_, ?_, ?_, ?_, ?_, ?_⟩
  · rw [div_le_one hWq]; linarith
  · rw [div_le_one hHq]; linarith
  · apply div_pos (by linarith) hWq
  · rw [div_le_one hWq]; linarith
  · apply div_pos (by linarith) hHq
  · rw [div_le_one hHq]; linarith
  · rw [div_add_div_same]
    rw [div_le_one hWq]; linarith
  · rw [div_add_div_same]
    rw [div_le_one hHq]; linarith

/-- Exponential smoothing with factor 0.28 is a convex combination and so
preserves the region invariant. -/
theorem emaBox_invariant (p nb : BoxNorm)
    (hp : RegionInvariant p) (hq : RegionInvariant nb) :
    RegionInvariant (emaBox p nb) := by
  obtain ⟨hp1, hp2, hp3, hp4, hp5, hp6, hp7, hp8, hp9, hp10⟩ := hp
  obtain ⟨hq1, hq2, hq3, hq4, hq5, hq6, hq7, hq8, hq9, hq10⟩ := hq
  unfold RegionInvariant emaBox
  refine ⟨?_, ?_, ?_, ?_, ?_, ?_, ?_, ?_, ?_, ?_⟩ <;> dsimp only <;> linarith

/-- The tick target ratio is positive whenever the configured ratio is
non-negative (zero falls back to the square ratio). -/
theorem tickTargetAR_pos (ar : ℚ) (har : 0 ≤ ar) : 0 < tickTargetAR ar := by
  unfold tickTargetAR
  split_ifs with h0
  · norm_num
  · exact lt_of_le_of_ne har (Ne.symm h0)

/-- Every candidate accepted by a tick satisfies the region invariant,
given the scan bounds of the edge pass and a non-negative configured
ratio. -/
theorem tickCandidate_invariant (W H : ℤ) (ar : ℚ) (b : IBox) (nb : BoxNorm)
    (hW : 0 < W) (hH : 0 < H) (har : 0 ≤ ar)
    (hx0 : 0 ≤ b.minX) (hx1 : b.maxX ≤ W - 1)
    (hy0 : 0 ≤ b.minY) (hy1 : b.maxY ≤ H - 1)
    (hcand : tickCandidate W H ar b = some nb) :
    RegionInvariant nb := by
  have htAR := tickTargetAR_pos ar har
  unfold tickCandidate at hcand
  dsimp only at hcand
  split_ifs at hcand with h1 h2
  · obtain ⟨ha1, ha2, ha3, ha4, ha5, ha6⟩ :=
      adjustBox_bounds W H (tickTargetAR ar) b htAR hx0 hx1 hy0 hy1 h1.1 h1.2
    have hnb := Option.some.inj hcand
    rw [hnb.symm] at *
    exact toBoxNorm_invariant W H (adjustBox W H (tickTargetAR ar) b) hW hH
      ha1 ha2 ha3 ha4 ha5 ha6

/-! ## Claim theorems -/

/-- C5: on a tick with no accepted candidate, the previously smoothed region
is carried over with all four coordinates unchanged (not discarded), and the
good flag is forced false. -/
theorem C5_hold_on_no_region (prev : Option BoxNorm) :
    smoothUpdate prev none = (prev, false) := rfl

/-- C8: the claimed fallback to the square ratio for every `aspectRatio ≤ 0`
does not hold in the code: the capture path (`aspectRatio > 0 ? ... : 1`)
maps `-1` to `1` as claimed, but the tick acceptance path
(`aspectRatio || 1`) maps `-1` to `-1`, falling back only at `0`. -/
theorem C8_aspect_fallback_divergence :
    tickTargetAR (-1) = -1 ∧ captureTargetAR (-1) = 1 ∧ tickTargetAR 0 = 1 := by
  refine ⟨?_, ?_, ?_⟩ <;> norm_num [tickTargetAR, captureTargetAR]

/-- C10: comparing an OCR text with itself yields no line diffs. -/
theorem C10_self_diff_empty (s : String) : makeLineDiffs s s = [] := by
  unfold makeLineDiffs
  refine List.filterMap_eq_nil_iff.mpr fun i _ => ?_
  simp

/-- C1: for a positive aspect ratio and a nonzero source frame, the capture
normalizer emits a 1000-pixel-wide canvas whose height is the rounding of
the exact height `1000 / ar`; that rounding is within half a pixel of the
exact height, and the exact-height rectangle has width/height ratio `ar`. -/
theorem C1_normalized_output (vw vh : ℕ) (ar : ℚ)
    (har : 0 < ar) (hvw : vw ≠ 0) (hvh : vh ≠ 0) :
    captureOutputDims vw vh ar = some (1000, round ((1000 : ℚ) / ar)) ∧
    |((round ((1000 : ℚ) / ar) : ℤ) : ℚ) - 1000 / ar| ≤ 1/2 ∧
    (1000 : ℚ) / ((1000 : ℚ) / ar) = ar := by
  refine ⟨?_, ?_, ?_⟩
  · unfold captureOutputDims captureTargetAR
    rw [if_neg (by simp [hvw, hvh]), if_pos har]
  · have h := abs_sub_round ((1000 : ℚ) / ar)
    rwa [abs_sub_comm] at h
  · rw [div_div_eq_mul_div]
    exact mul_div_cancel_left₀ ar (by norm_num)

/-- Witness for C1 at a concrete frame and ratio. -/
theorem C1_normalized_output_witness :
    captureOutputDims 1280 960 2 = some (1000, round ((1000 : ℚ) / 2)) ∧
    |((round ((1000 : ℚ) / 2) : ℤ) : ℚ) - 1000 / 2| ≤ 1/2 ∧
    (1000 : ℚ) / ((1000 : ℚ) / 2) = 2 :=
  C1_normalized_output 1280 960 2 (by norm_num) (by norm_num) (by norm_num)

/-- C7: for positive frame dimensions and target ratio, the center-crop
fallback returns a rectangle of width/height ratio exactly `targetAR`,
centred in the frame, bounded by 70% of each dimension and touching that
bound in at least one dimension, with positive extent. -/
theorem C7_central_crop (W H targetAR : ℚ)
    (hW : 0 < W) (hH : 0 < H) (hAR : 0 < targetAR) :
    (centralCrop W H targetAR).sw / (centralCrop W H targetAR).sh = targetAR ∧
    (centralCrop W H targetAR).sx = (W - (centralCrop W H targetAR).sw) / 2 ∧
    (centralCrop W H targetAR).sy = (H - (centralCrop W H targetAR).sh) / 2 ∧
    (centralCrop W H targetAR).sw ≤ W * (7/10) ∧
    (centralCrop W H targetAR).sh ≤ H * (7/10) ∧
    ((centralCrop W H targetAR).sw = W * (7/10) ∨
      (centralCrop W H targetAR).sh = H * (7/10)) ∧
    0 < (centralCrop W H targetAR).sw ∧ 0 < (centralCrop W H targetAR).sh := by
  unfold centralCrop
  dsimp only
  split_ifs with hcase
  · simp only
    rw [lt_div_iff₀ hAR] at hcase
    refine ⟨?_, trivial, trivial, le_of_lt hcase, le_refl _, Or.inr trivial, ?_, ?_⟩
    · exact mul_div_cancel_left₀ targetAR (by positivity)
    · positivity
    · positivity
  · simp only
    rw [not_lt] at hcase
    refine ⟨?_, trivial, trivial, le_refl _, hcase, Or.inl trivial, ?_, ?_⟩
    · rw [div_div_eq_mul_div]
      exact mul_div_cancel_left₀ targetAR (by positivity)
    · positivity
    · positivity

/-- Witness for C7 at the spec's concrete scenario frame 1280×960 with a
square target ratio. -/
theorem C7_central_crop_witness :
    (centralCrop 1280 960 1).sw / (centralCrop 1280 960 1).sh = 1 ∧
    (centralCrop 1280 960 1).sx = (1280 - (centralCrop 1280 960 1).sw) / 2 ∧
    (centralCrop 1280 960 1).sy = (960 - (centralCrop 1280 960 1).sh) / 2 ∧
    (centralCrop 1280 960 1).sw ≤ 1280 * (7/10) ∧
    (centralCrop 1280 960 1).sh ≤ 960 * (7/10) ∧
    ((centralCrop 1280 960 1).sw = 1280 * (7/10) ∨
      (centralCrop 1280 960 1).sh = 960 * (7/10)) ∧
    0 < (centralCrop 1280 960 1).sw ∧ 0 < (centralCrop 1280 960 1).sh :=
  C7_central_crop 1280 960 1 (by norm_num) (by norm_num) (by norm_num)

/-- C9: a null blob aborts the capture attempt: `onCapture` is not invoked,
the frozen flag, preview URL and timestamp are untouched, and only the
processing flag is lowered, so the pre-attempt state is restored exactly
whenever the attempt started from a non-processing state. -/
theorem C9_null_blob_abort (s : CamState) (vw vh : ℕ) (purl : String)
    (now : ℕ) (hvw : vw ≠ 0) (hvh : vh ≠ 0) :
    handleCapture s vw vh true true none purl now =
      ({ s with isProcessing := false }, none) ∧
    (s.isProcessing = false →
      (handleCapture s vw vh true true none purl now).1 = s) := by
  have h1 : handleCapture s vw vh true true none purl now =
      ({ s with isProcessing := false }, none) := by
    simp [handleCapture, hvw, hvh]
  refine ⟨h1, fun hp => ?_⟩
  rw [h1]
  cases s
  simp_all

/-- Witness for C9 at a concrete idle state and frame. -/
theorem C9_null_blob_abort_witness :
    handleCapture ⟨false, false, none, none⟩ 1280 960 true true none "p" 7 =
      ({ isProcessing := false, isFrozen := false,
         lastPreviewUrl := none, lastShotAt := none }, none) ∧
    ((⟨false, false, none, none⟩ : CamState).isProcessing = false →
      (handleCapture ⟨false, false, none, none⟩ 1280 960 true true none "p" 7).1 =
        ⟨false, false, none, none⟩) :=
  C9_null_blob_abort ⟨false, false, none, none⟩ 1280 960 "p" 7
    (by norm_num) (by norm_num)

/-- C2: the JPEG re-encode loop of `exportCroppedRegion` is a terminating
function (it is defined by well-founded recursion on the quality, which
drops by 0.08 per iteration while above the floor 0.6), and any file it
emits is either within the byte budget or encoded at the quality floor
0.6 exactly. -/
theorem C2_encode_budget (encode : ℚ → Option ℕ) (maxBytes : ℕ) (q : ℚ)
    (b : ℕ) (h : exportEncode encode maxBytes = some (q, b)) :
    b ≤ maxBytes ∨ q = 3/5 := by
  unfold exportEncode at h
  cases h0 : encode (23/25) with
  | none => rw [h0] at h; simp at h
  | some b0 =>
    rw [h0] at h
    simp only [Option.some_bind] at h
    rcases hr : encodeLoop encode maxBytes (23/25) b0 with ⟨q2, ob⟩
    rw [hr] at h
    cases ob with
    | none => simp at h
    | some b2 =>
      simp only [Option.map_some] at h
      have hq : q2 = q := (Prod.mk.injEq .. ▸ Option.some.inj h).1
      have hb : b2 = b := (Prod.mk.injEq .. ▸ Option.some.inj h).2
      rw [hq, hb] at hr
      rcases encodeLoop_result encode maxBytes (23/25) b0 q b hr with hle | hfloor
      · exact Or.inl hle
      · obtain ⟨k, hk, hd⟩ := encodeLoop_grid encode maxBytes (23/25) b0 q b hr
        rcases hd with h0k | h13
        · subst h0k
          simp at hk
          norm_num [hk] at hfloor
        · have h4 : (4 : ℚ) ≤ (k : ℚ) := by linarith [hk, hfloor]
          have h5 : ((k : ℚ)) < 5 := by linarith [hk, h13]
          have hk4 : k = 4 := by
            have ha : 4 ≤ k := by exact_mod_cast h4
            have hbb : k < 5 := by exact_mod_cast h5
            omega
          subst hk4
          right
          rw [hk]
          norm_num

/-- Witness for C2 with an encoder that always fits the budget. -/
theorem C2_encode_budget_witness : 0 ≤ 5 ∨ (23 : ℚ)/25 = 3/5 :=
  C2_encode_budget (fun _ => some 0) 5 (23/25) 0 (by
    have h1 : encodeLoop (fun _ => some 0) 5 (23/25) 0 = (23/25, some 0) := by
      rw [encodeLoop]
      norm_num
    simp [exportEncode, h1])

/-- C4: a tick emits a candidate region exactly when the degeneracy guard
holds and all three acceptance checks pass: relative area strictly between
0.2 and 0.7, centre within normalized distance 0.25 of the frame centre,
and residual aspect error after adjustment below 0.25; if any check fails,
no region is emitted for that tick. -/
theorem C4_accept_checks (W H : ℤ) (ar : ℚ) (b : IBox) :
    (tickCandidate W H ar b).isSome = true ↔
      (b.minX < b.maxX ∧ b.minY < b.maxY ∧
       okArea W H (b.maxX - b.minX) (b.maxY - b.minY) ∧
       okCenter W H (adjustBox W H (tickTargetAR ar) b) ∧
       okRatio (tickTargetAR ar) (adjustBox W H (tickTargetAR ar) b)) := by
  by_cases h1 : b.minX < b.maxX ∧ b.minY < b.maxY
  · by_cases h2 : okArea W H (b.maxX - b.minX) (b.maxY - b.minY) ∧
        okCenter W H (adjustBox W H (tickTargetAR ar) b) ∧
        okRatio (tickTargetAR ar) (adjustBox W H (tickTargetAR ar) b)
    · simp only [tickCandidate, if_pos h1, if_pos h2, Option.isSome_some]
      tauto
    · simp only [tickCandidate, if_pos h1, if_neg h2, Option.isSome_none]
      tauto
  · simp only [tickCandidate, if_neg h1, Option.isSome_none]
    tauto

/-- C6: every region accepted by a tick satisfies the NormalizedRegion
invariant (given the scan bounds of the edge pass, positive frame
dimensions, and a non-negative configured ratio), and the exponential
moving average update preserves the invariant whenever both of its inputs
satisfy it. -/
theorem C6_region_invariant (W H : ℤ) (ar : ℚ) (b : IBox) (nb p q : BoxNorm)
    (hW : 0 < W) (hH : 0 < H) (har : 0 ≤ ar)
    (hx0 : 0 ≤ b.minX) (hx1 : b.maxX ≤ W - 1)
    (hy0 : 0 ≤ b.minY) (hy1 : b.maxY ≤ H - 1)
    (hcand : tickCandidate W H ar b = some nb)
    (hp : RegionInvariant p) (hq : RegionInvariant q) :
    RegionInvariant nb ∧ RegionInvariant (emaBox p q) :=
  ⟨tickCandidate_invariant W H ar b nb hW hH har hx0 hx1 hy0 hy1 hcand,
   emaBox_invariant p q hp hq⟩

/-- Witness for C6 on the 320×240 analysis frame with a square ratio and a
concrete accepted box. -/
theorem C6_region_invariant_witness :
    RegionInvariant (BoxNorm.mk (5/16) (1/6) (1/2) (2/3)) ∧
    RegionInvariant (emaBox (BoxNorm.mk (1/4) (1/4) (1/4) (1/4))
      (BoxNorm.mk (1/4) (1/4) (1/4) (1/4))) :=
  C6_region_invariant 320 240 1 (IBox.mk 100 60 260 180)
    (BoxNorm.mk (5/16) (1/6) (1/2) (2/3))
    (BoxNorm.mk (1/4) (1/4) (1/4) (1/4)) (BoxNorm.mk (1/4) (1/4) (1/4) (1/4))
    (by norm_num) (by norm_num) (by norm_num) (by norm_num) (by norm_num)
    (by norm_num) (by norm_num)
    (by
      have ht : tickTargetAR 1 = 1 := by norm_num [tickTargetAR]
      have hadj : adjustBox 320 240 1 (IBox.mk 100 60 260 180) =
          IBox.mk 100 40 260 200 := by
        unfold adjustBox
        norm_num [round_eq]
      unfold tickCandidate
      dsimp only
      rw [ht, hadj]
      norm_num [okArea, areaRel, okCenter, centerDistSq, okRatio, toBoxNorm,
        sq_abs, round_eq])
    (by norm_num [RegionInvariant]) (by norm_num [RegionInvariant])

/-- C3: no automatic capture occurs before the configured warm-up time has
elapsed, whatever the focus scores. Modelled from the spec (sections 4.3
and 4.4); no auto-capture code exists under `src/`. -/
theorem C3_warmup_enforcement (p : ScorerParams) (frames : List (ℕ × ℕ))
    (h : (frames.map Prod.fst).sum < p.warmupMs) :
    autoCaptureCount p ⟨0, 0⟩ frames = 0 :=
  autoCaptureCount_eq_zero p frames ⟨0, 0⟩ (by simpa using h)

/-- Witness for C3 at the spec's concrete scenario: 90 frames at 30 fps all
scoring 5000 against threshold 1500 and a 3000 ms warm-up. -/
theorem C3_warmup_enforcement_witness :
    ((List.replicate 90 ((33 : ℕ), (5000 : ℕ))).map Prod.fst).sum < 3000 ∧
    autoCaptureCount ⟨3000, 1500, 10⟩ ⟨0, 0⟩
      (List.replicate 90 ((33 : ℕ), (5000 : ℕ))) = 0 :=
  ⟨by decide, C3_warmup_enforcement ⟨3000, 1500, 10⟩ _ (by decide)⟩

end ScTextFE
